import Mathlib

set_option maxRecDepth 10000

/-! Shallow embedding of the timer-registry / reminder-scheduler core of
`src/app.py`.

Instants are modelled as integers: seconds in the configured fixed-offset
timezone (the configured zone has no daylight-saving transitions, so one
calendar day is exactly 86400 seconds and `datetime.replace(hour, minute,
second=0, microsecond=0)` is start-of-day plus the clock offset).  ISO
timestamp strings stored in the JSON state round-trip injectively with the
instants they denote, so the `last_notified` field is modelled as an
`Option Int` (the empty string mapping to `none`).  Characters matched by
the source's `\d` regexes are modelled as the ASCII digits. -/

/-- One row of `BOSS_TABLE`: canonical name, respawn period in minutes,
aliases. -/
structure BossEntry where
  name : String
  period : Nat
  aliases : List String
deriving DecidableEq

/-- The static entity catalog `BOSS_TABLE` from `src/app.py`. -/
def BOSS_TABLE : List BossEntry := [
  ⟨"巨大鱷魚", 60, []⟩,
  ⟨"單飛龍", 180, []⟩,
  ⟨"雙飛龍", 180, []⟩,
  ⟨"黑長者", 240, ["黑老"]⟩,
  ⟨"克特", 360, []⟩,
  ⟨"四色", 180, []⟩,
  ⟨"魔法師", 180, []⟩,
  ⟨"死亡騎士", 360, ["死騎"]⟩,
  ⟨"巴風特", 240, ["小巴"]⟩,
  ⟨"巴列斯", 240, ["大巴"]⟩,
  ⟨"巨蟻女皇", 360, ["螞蟻"]⟩,
  ⟨"變形怪首領", 300, ["變怪"]⟩,
  ⟨"伊佛利特", 180, ["EF"]⟩,
  ⟨"不死鳥", 360, ["鳥"]⟩,
  ⟨"冰之女王", 360, ["冰女"]⟩,
  ⟨"惡魔", 360, []⟩,
  ⟨"古代巨人", 360, ["古巨"]⟩,
  ⟨"反王肯恩", 240, []⟩,
  ⟨"賽尼斯", 240, []⟩,
  ⟨"巨大牛人", 360, ["牛"]⟩,
  ⟨"潔尼斯女王", 360, ["2樓"]⟩,
  ⟨"幻象眼魔", 360, ["3樓"]⟩,
  ⟨"吸血鬼", 360, ["4樓"]⟩,
  ⟨"殭屍王", 360, ["5樓"]⟩,
  ⟨"黑豹", 360, ["6樓"]⟩,
  ⟨"木乃伊王", 360, ["7樓"]⟩,
  ⟨"艾莉絲", 360, ["8樓"]⟩,
  ⟨"騎士范德", 360, ["9樓"]⟩,
  ⟨"巫妖", 360, ["10樓"]⟩,
  ⟨"土精靈王", 120, []⟩,
  ⟨"水精靈王", 120, []⟩,
  ⟨"風精靈王", 120, []⟩,
  ⟨"火精靈王", 120, []⟩,
  ⟨"獨角獸", 360, []⟩,
  ⟨"曼波兔(海賊島)", 360, []⟩,
  ⟨"庫曼", 360, []⟩,
  ⟨"德雷克", 180, []⟩,
  ⟨"曼波兔(精靈墓穴)", 360, []⟩,
  ⟨"深淵之主", 360, []⟩,
  ⟨"須曼", 360, []⟩,
  ⟨"安塔瑞斯", 720, []⟩,
  ⟨"巴拉卡斯", 720, []⟩,
  ⟨"法利昂", 720, []⟩,
  ⟨"林德拜爾", 720, []⟩]

/-- `BOSS_RESPAWN_MIN`: period lookup by canonical name (the Python dict
comprehension; names are unique, so first-hit search agrees with it). -/
def BOSS_RESPAWN_MIN (b : String) : Option Nat :=
  (BOSS_TABLE.find? (fun e => e.name == b)).map BossEntry.period

/-- `ALIAS_TO_BOSS`: alias → canonical name pairs in table order (the
Python dict preserves insertion order; aliases are unique). -/
def ALIAS_TO_BOSS : List (String × String) :=
  List.flatten (BOSS_TABLE.map (fun e => e.aliases.map (fun a => (a, e.name))))

/-! ## Time model and the time calculator -/

/-- Seconds in one calendar day of the configured (fixed-offset, no-DST)
timezone. -/
def daySec : Int := 86400

/-- Start of the calendar day containing instant `t` (what
`replace(hour=0, minute=0, second=0, microsecond=0)` yields). -/
def dayStart (t : Int) : Int := daySec * (t / daySec)

/-- `n.replace(hour=hh, minute=mm, second=0, microsecond=0)`: the clock
time `hh:mm` bound to the calendar day of `now`. -/
def anchorToday (now : Int) (hh mm : Nat) : Int :=
  dayStart now + 3600 * (hh : Int) + 60 * (mm : Int)

/-- `smart_day_datetime` from `src/app.py`: bind `hh:mm` to today, but if
that instant is more than 5 minutes after `now`, assume the operator meant
yesterday and subtract one day. -/
def smart_day_datetime (now : Int) (hh mm : Nat) : Int :=
  let c := anchorToday now hh mm
  if now + 300 < c then c - daySec else c

/-- The respawn instant stored by an explicit-reappearance registration
(`Boss<time>出` branch of `handle_message`): `base_dt` is stored as-is. -/
def storedExplicit (now : Int) (hh mm : Nat) : Int :=
  smart_day_datetime now hh mm

/-- The respawn instant stored by a death-time registration (`Boss<time>`
branch of `handle_message`): `base_dt + timedelta(minutes=period)`. -/
def storedDeath (now : Int) (hh mm p : Nat) : Int :=
  smart_day_datetime now hh mm + 60 * (p : Int)

/-- The bounded loop body of `roll_respawn_to_future`: up to `fuel`
iterations of "if the instant has not yet reached `n`, add `interval`". -/
def rollGo (interval n : Int) : Nat → Int → Int
  | 0, r => r
  | fuel + 1, r => if n ≤ r then r else rollGo interval n fuel (r + interval)

/-- `roll_respawn_to_future` with the period resolved to an interval in
seconds: return `r` unchanged for a non-positive interval, else run the
500-step bounded roll-forward loop. -/
def rollToFuture (interval n r : Int) : Int :=
  if interval ≤ 0 then r else rollGo interval n 500 r

/-- `roll_respawn_to_future(boss, respawn_dt)` from `src/app.py`, with
`n` the current instant: the interval is `BOSS_RESPAWN_MIN.get(boss, 0)`
minutes. -/
def roll_respawn_to_future (boss : String) (n r : Int) : Int :=
  rollToFuture (60 * (((BOSS_RESPAWN_MIN boss).getD 0 : Nat) : Int)) n r

/-! ## Timer records and the reminder scheduler -/

/-- One stored timer record: the `respawn` instant and the
`last_notified` dedup key (`none` models the empty string; a sent
reminder stores the ISO key of the rolled-forward respawn instant, which
corresponds injectively to the instant itself). -/
structure TimerRec where
  respawn : Int
  lastNotified : Option Int
deriving DecidableEq

/-- The record written by either registration branch of `handle_message`:
fresh `respawn`, `last_notified` reset to the empty string. -/
def registerRecord (respawn : Int) : TimerRec :=
  { respawn := respawn, lastNotified := none }

/-- One scheduler visit to one record inside `reminder_loop`, at instant
`now`, with the boss's interval (in seconds) already resolved.  `sendOk`
says whether `push_message` succeeds; on failure the exception is
swallowed and `last_notified` is left unchanged.  Returns the updated
record and whether a reminder was dispatched. -/
def tickRecord (interval now : Int) (r : TimerRec) (sendOk : Bool) :
    TimerRec × Bool :=
  let f := rollToFuture interval now r.respawn
  if f - 300 ≤ now ∧ now ≤ f then
    if r.lastNotified = some f then (r, false)
    else if sendOk then ({ respawn := r.respawn, lastNotified := some f }, true)
    else (r, false)
  else (r, false)

/-- One scheduler visit to one `(boss, record)` entry of a target's boss
map: entries whose boss is not in `BOSS_RESPAWN_MIN` are skipped
(`continue`). -/
def tickEntry (now : Int) (sendOk : Bool) (e : String × TimerRec) :
    (String × TimerRec) × Bool :=
  match BOSS_RESPAWN_MIN e.1 with
  | none => (e, false)
  | some p =>
      ((e.1, (tickRecord (60 * (p : Int)) now e.2 sendOk).1),
       (tickRecord (60 * (p : Int)) now e.2 sendOk).2)

/-- One full scheduler pass over a target's boss map (the inner `for` of
`reminder_loop`): every entry is visited in place; no entry is ever
inserted or deleted. -/
def tickMap (now : Int) (sendOk : Bool) (m : List (String × TimerRec)) :
    List (String × TimerRec) :=
  m.map (fun e => (tickEntry now sendOk e).1)

/-! ## Bulk-clear confirmation workflow -/

/-- Per-target state relevant to the clear workflow: the boss map and the
`pending_clear_until` deadline (`none` models the empty string). -/
structure TargetData where
  boss : List (String × TimerRec)
  pendingClearUntil : Option Int
deriving DecidableEq

/-- The `王表清除` branch of `handle_message`: arm (or re-arm) the pending
confirmation with deadline `now + 60` seconds. -/
def requestClear (now : Int) (t : TargetData) : TargetData :=
  { t with pendingClearUntil := some (now + 60) }

/-- The `王表確認清除` branch of `handle_message`: if a pending deadline
exists and `now` has not passed it, wipe the boss map and consume the
pending confirmation; otherwise leave the state untouched.  The boolean
reports whether the bulk clear executed. -/
def confirmClear (now : Int) (t : TargetData) : TargetData × Bool :=
  match t.pendingClearUntil with
  | none => (t, false)
  | some u =>
      if now ≤ u then ({ boss := [], pendingClearUntil := none }, true)
      else (t, false)

/-! ## Clock-token parsing (`parse_hhmm`) -/

/-- Python `str.strip` on a character list: drop leading and trailing
whitespace. -/
def pyStrip (cs : List Char) : List Char :=
  ((cs.dropWhile Char.isWhitespace).reverse.dropWhile Char.isWhitespace).reverse

/-- A character matched by the source's `\d` (modelled as ASCII digits). -/
def isDigitChar (c : Char) : Bool :=
  decide (48 ≤ c.toNat) && decide (c.toNat ≤ 57)

/-- Numeric value of a digit character (what `int` computes per digit). -/
def digitVal (c : Char) : Nat := c.toNat - 48

/-- The shared range check of `parse_hhmm`: `0 <= hh <= 23 and
0 <= mm <= 59`. -/
def chkClock (hh mm : Nat) : Option (Nat × Nat) :=
  if hh ≤ 23 ∧ mm ≤ 59 then some (hh, mm) else none

/-- `parse_hhmm` after stripping, by token shape: a 3-digit token `HMM`, a
4-digit token `HHMM`, or a colon token `H:MM` / `HH:MM` (the regexes
`\d{3,4}` and `(\d{1,2}):(\d{2})`, tried in that order); anything else is
rejected. -/
def parseClockChars : List Char → Option (Nat × Nat)
  | [a, b, c] =>
      if isDigitChar a && isDigitChar b && isDigitChar c then
        chkClock (digitVal a) (10 * digitVal b + digitVal c)
      else none
  | [a, b, c, d] =>
      if isDigitChar a && isDigitChar b && isDigitChar c && isDigitChar d then
        chkClock (10 * digitVal a + digitVal b) (10 * digitVal c + digitVal d)
      else if isDigitChar a && (b == ':') && isDigitChar c && isDigitChar d then
        chkClock (digitVal a) (10 * digitVal c + digitVal d)
      else none
  | [a, b, c, d, e] =>
      if isDigitChar a && isDigitChar b && (c == ':') && isDigitChar d && isDigitChar e then
        chkClock (10 * digitVal a + digitVal b) (10 * digitVal d + digitVal e)
      else none
  | _ => none

/-- `parse_hhmm(token)` from `src/app.py`. -/
def parse_hhmm (token : String) : Option (Nat × Nat) :=
  parseClockChars (pyStrip token.data)

/-- The token shapes accepted by the clock parser, as a relation between
the stripped character list and the parsed `(hour, minute)` pair (used to
state the corrected version of the parser claim). -/
def clockRep (cs : List Char) (hh mm : Nat) : Prop :=
  (∃ a b c, cs = [a, b, c] ∧ isDigitChar a = true ∧ isDigitChar b = true ∧
    isDigitChar c = true ∧ hh = digitVal a ∧ mm = 10 * digitVal b + digitVal c) ∨
  (∃ a b c d, cs = [a, b, c, d] ∧ isDigitChar a = true ∧ isDigitChar b = true ∧
    isDigitChar c = true ∧ isDigitChar d = true ∧
    hh = 10 * digitVal a + digitVal b ∧ mm = 10 * digitVal c + digitVal d) ∨
  (∃ a c d, cs = [a, ':', c, d] ∧ isDigitChar a = true ∧ isDigitChar c = true ∧
    isDigitChar d = true ∧ hh = digitVal a ∧ mm = 10 * digitVal c + digitVal d) ∨
  (∃ a b d e, cs = [a, b, ':', d, e] ∧ isDigitChar a = true ∧ isDigitChar b = true ∧
    isDigitChar d = true ∧ isDigitChar e = true ∧
    hh = 10 * digitVal a + digitVal b ∧ mm = 10 * digitVal d + digitVal e)

/-! ## Name resolution (`resolve_boss`) -/

/-- `normalize_text` from `src/app.py`: delete every whitespace character
(`re.sub(r"\s+", "", s.strip())`). -/
def normalize_text (s : String) : String :=
  String.mk (s.data.filter (fun c => ! c.isWhitespace))

/-- Python `str.strip` on strings. -/
def pyStripS (s : String) : String := String.mk (pyStrip s.data)

/-- `needle in hay` for Python strings: `prefixAt` checks a prefix match
at the current position. -/
def prefixAt : List Char → List Char → Bool
  | [], _ => true
  | _ :: _, [] => false
  | a :: xs, b :: ys => a == b && prefixAt xs ys

/-- Contiguous-substring containment, as Python's `in` on strings. -/
def hasSubList (needle : List Char) : List Char → Bool
  | [] => needle.isEmpty
  | b :: ys => prefixAt needle (b :: ys) || hasSubList needle ys

/-- `needle in hay` on strings. -/
def strContains (hay needle : String) : Bool :=
  hasSubList needle.data hay.data

/-- The order-preserving deduplication loop of `resolve_boss` (`uniq`
accumulates first occurrences). -/
def dedupKeep (seen : List String) : List String → List String
  | [] => []
  | x :: xs =>
      if seen.contains x then dedupKeep seen xs
      else x :: dedupKeep (seen ++ [x]) xs

/-- The fuzzy-match pass of `resolve_boss`: every table row whose name
contains `q`, or one of whose aliases equals or contains `q`, contributes
its canonical name once, in table order. -/
def fuzzyHits (q : String) : List String :=
  BOSS_TABLE.filterMap (fun e =>
    if strContains e.name q || e.aliases.any (fun a => a == q || strContains a q) then
      some e.name
    else none)

/-- `resolve_boss(query)` from `src/app.py`: exact canonical name, then
exact alias, then fuzzy containment; a unique fuzzy hit wins, otherwise
the first 10 deduplicated hits are returned as suggestions. -/
def resolve_boss (query : String) : Option String × List String :=
  let q := pyStripS query
  if q == "" then (none, [])
  else
    let qn := normalize_text q
    match BOSS_TABLE.find? (fun e => normalize_text e.name == qn) with
    | some e => (some e.name, [])
    | none =>
        match ALIAS_TO_BOSS.find? (fun ab => normalize_text ab.1 == qn) with
        | some ab => (some ab.2, [])
        | none =>
            let uniq := dedupKeep [] (fuzzyHits q)
            if uniq.length == 1 then (uniq.head?, [])
            else (none, uniq.take 10)

/-! ## Helper lemmas about the roll-forward loop and the scheduler -/

lemma rollGo_steps (i n : Int) : ∀ (fuel : Nat) (r : Int), ∃ k : Nat, k ≤ fuel ∧
    rollGo i n fuel r = r + (k : Int) * i ∧ ∀ j : Nat, j < k → r + (j : Int) * i < n := by
  intro fuel
  induction fuel with
  | zero =>
      intro r
      refine ⟨0, Nat.le_refl 0, by simp [rollGo], ?_⟩
      intro j hj
      omega
  | succ m ih =>
      intro r
      by_cases h : n ≤ r
      · refine ⟨0, Nat.zero_le _, by simp [rollGo, h], ?_⟩
        intro j hj
        omega
      · obtain ⟨k, hk, he, hj⟩ := ih (r + i)
        refine ⟨k + 1, by omega, ?_, ?_⟩
        · have hstep : rollGo i n (m + 1) r = rollGo i n m (r + i) := by
            simp [rollGo, h]
          rw [hstep, he]
          push_cast
          ring
        · intro j hjlt
          cases j with
          | zero => simpa using (by omega : r < n)
          | succ j2 =>
              have h2 := hj j2 (by omega)
              have hcast : r + ((j2 + 1 : Nat) : Int) * i = (r + i) + (j2 : Int) * i := by
                push_cast
                ring
              rw [hcast]
              exact h2

lemma rollGo_stable (i n n2 : Int) (h12 : n ≤ n2) :
    ∀ (fuel : Nat) (r : Int), n2 ≤ rollGo i n fuel r →
      rollGo i n2 fuel r = rollGo i n fuel r := by
  intro fuel
  induction fuel with
  | zero =>
      intro r h
      rfl
  | succ m ih =>
      intro r h
      by_cases hr : n ≤ r
      · have hr2 : n2 ≤ r := by
          simp only [rollGo, if_pos hr] at h
          exact h
        simp [rollGo, hr, hr2]
      · have hr2 : ¬ n2 ≤ r := by omega
        simp only [rollGo, if_neg hr] at h
        simp only [rollGo, if_neg hr, if_neg hr2]
        exact ih (r + i) h

lemma tickRecord_fst_respawn (interval now : Int) (r : TimerRec) (ok : Bool) :
    (tickRecord interval now r ok).1.respawn = r.respawn := by
  simp only [tickRecord]
  split
  · split
    · rfl
    · split <;> rfl
  · rfl

lemma tickRecord_already (interval now : Int) (r : TimerRec) (ok : Bool)
    (h : r.lastNotified = some (rollToFuture interval now r.respawn)) :
    tickRecord interval now r ok = (r, false) := by
  simp only [tickRecord]
  rw [if_pos h]
  split <;> rfl

lemma tickEntry_name (now : Int) (ok : Bool) (e : String × TimerRec) :
    ((tickEntry now ok e).1).1 = e.1 := by
  unfold tickEntry
  cases BOSS_RESPAWN_MIN e.1 <;> rfl

lemma tickEntry_respawn (now : Int) (ok : Bool) (e : String × TimerRec) :
    ((tickEntry now ok e).1).2.respawn = e.2.respawn := by
  unfold tickEntry
  cases BOSS_RESPAWN_MIN e.1 with
  | none => rfl
  | some p => exact tickRecord_fst_respawn (60 * (p : Int)) now e.2 ok

lemma rollToFuture_stable (interval n n2 r : Int) (hpos : 0 < interval)
    (h12 : n ≤ n2) (hwin : n2 ≤ rollToFuture interval n r) :
    rollToFuture interval n2 r = rollToFuture interval n r := by
  unfold rollToFuture at hwin ⊢
  rw [if_neg (by omega)] at hwin
  rw [if_neg (by omega), if_neg (by omega)]
  exact rollGo_stable interval n n2 h12 500 r hwin

/-- Claim C1 (confirmed): the scheduler dispatches at most one reminder
per distinct rolled-forward respawn instant.  If a tick at `n` dispatched
a reminder for a record, then any later tick at `n2` that is still no
later than that occurrence, with the stored `respawn` unchanged,
dispatches nothing and leaves the record unchanged.  Moreover a tick
changes `lastNotified` only by a successful dispatch, which sets it to the
identity of the current rolled-forward occurrence, and registration
resets it to the empty value. -/
theorem reminder_dispatched_once_per_occurrence
    (interval n n2 : Int) (r r2 : TimerRec)
    (hpos : 0 < interval)
    (hsend : tickRecord interval n r true = (r2, true))
    (hle : n ≤ n2) (hwin : n2 ≤ rollToFuture interval n r.respawn) :
    tickRecord interval n2 r2 true = (r2, false) ∧
    (∀ (m : Int) (s : TimerRec) (ok : Bool),
      ((tickRecord interval m s ok).1.lastNotified = s.lastNotified ∧
        (tickRecord interval m s ok).2 = false) ∨
      ((tickRecord interval m s ok).2 = true ∧
        (tickRecord interval m s ok).1.lastNotified =
          some (rollToFuture interval m s.respawn))) ∧
    (∀ x : Int, (registerRecord x).lastNotified = none) := by
  have hstab : rollToFuture interval n2 r.respawn = rollToFuture interval n r.respawn :=
    rollToFuture_stable interval n n2 r.respawn hpos hle hwin
  refine ⟨?_, ?_, fun x => rfl⟩
  · have hr2 : r2 = TimerRec.mk r.respawn (some (rollToFuture interval n r.respawn)) := by
      simp only [tickRecord] at hsend
      split at hsend
      · split at hsend
        · exact absurd (congrArg Prod.snd hsend) (by simp)
        · simp only [if_true] at hsend
          exact (congrArg Prod.fst hsend).symm
      · exact absurd (congrArg Prod.snd hsend) (by simp)
    subst hr2
    exact tickRecord_already interval n2 _ true (by simp [hstab])
  · intro m s ok
    simp only [tickRecord]
    split
    · split
      · exact Or.inl ⟨rfl, rfl⟩
      · split
        · exact Or.inr ⟨rfl, rfl⟩
        · exact Or.inl ⟨rfl, rfl⟩
    · exact Or.inl ⟨rfl, rfl⟩

/-- Witness for C1 at a concrete input: interval 3600 s, a reminder sent
at `n = 7000` for stored respawn 7200; the tick at `n2 = 7100` sends
nothing and changes nothing. -/
theorem reminder_dispatched_once_witness :
    tickRecord 3600 7100 { respawn := 7200, lastNotified := some 7200 } true
      = ({ respawn := 7200, lastNotified := some 7200 }, false) :=
  (reminder_dispatched_once_per_occurrence 3600 7000 7100 (registerRecord 7200)
    { respawn := 7200, lastNotified := some 7200 }
    (by decide) (by decide) (by decide) (by decide)).1

/-- Claim C2 (counterexample): the spec's grace-period expiry does not
exist in the code.  With stored respawn 0 and `now = 1000000` (far past
`respawnAt + gracePeriod` for the spec's 3-minute grace period), the
scheduler pass leaves the record in place instead of deleting it. -/
theorem scheduler_never_expires_counterexample :
    ((0 : Int) + 180 < 1000000) ∧
    tickMap 1000000 true [("克特", registerRecord 0)] = [("克特", registerRecord 0)] :=
  ⟨by decide, by decide⟩

/-- Claim C2 (amended): the scheduler never deletes (nor adds) timer
records — there is no expiry transition at all; records disappear only
through the explicit clear commands. -/
theorem scheduler_preserves_keys (now : Int) (ok : Bool)
    (m : List (String × TimerRec)) :
    (tickMap now ok m).map Prod.fst = m.map Prod.fst := by
  unfold tickMap
  rw [List.map_map]
  apply List.map_congr_left
  intro e _
  exact tickEntry_name now ok e

/-- Claim C5 (confirmed): a scheduler pass never rewrites the stored
`respawn` of any record (and keeps every key): the rolled-forward instant
is computed only ephemerally to decide notification; the stored value
changes only when a registration overwrites the record. -/
theorem scheduler_preserves_respawn (now : Int) (ok : Bool)
    (m : List (String × TimerRec)) :
    (tickMap now ok m).map (fun e => (e.1, e.2.respawn))
      = m.map (fun e => (e.1, e.2.respawn)) := by
  unfold tickMap
  rw [List.map_map]
  apply List.map_congr_left
  intro e _
  simp only [Function.comp]
  rw [Prod.ext_iff]
  exact ⟨tickEntry_name now ok e, tickEntry_respawn now ok e⟩

/-- Claim C9 (confirmed): the roll-forward helper adds the entity's
period at most 500 times, never advancing once the instant has reached
`now` (every multiple it steps past was strictly below `now`); with a
60-minute period it can return an instant still in the past when the
stored instant lies more than 500 periods before `now`, and it can
return an instant exactly equal to `now`. -/
theorem roll_respawn_bounded (boss : String) (p : Nat) (n r : Int)
    (hb : BOSS_RESPAWN_MIN boss = some p) (hp : 0 < p) :
    (∃ k : Nat, k ≤ 500 ∧
      roll_respawn_to_future boss n r = r + (k : Int) * (60 * (p : Int)) ∧
      ∀ j : Nat, j < k → r + (j : Int) * (60 * (p : Int)) < n) ∧
    roll_respawn_to_future ("巨大鱷魚") 1803600 0 = 1800000 ∧
    ((1800000 : Int) < 1803600) ∧
    roll_respawn_to_future ("巨大鱷魚") 5000 5000 = 5000 := by
  refine ⟨?_, by decide, by decide, by decide⟩
  unfold roll_respawn_to_future rollToFuture
  rw [hb]
  simp only [Option.getD_some]
  rw [if_neg (by omega)]
  exact rollGo_steps (60 * (p : Int)) n 500 r

/-- Witness for C9 at a concrete input (the 60-minute-period entity). -/
theorem roll_respawn_bounded_witness :
    roll_respawn_to_future ("巨大鱷魚") 1803600 0 = 1800000 :=
  (roll_respawn_bounded ("巨大鱷魚") 60 1803600 0 (by decide) (by decide)).2.1

/-- Claim C3 (counterexample): a death-time registration can store a
respawn instant that is not strictly greater than `now`.  At
`now` = 10:00:00 of day 0 (36000 s), registering death time 08:00 for a
60-minute entity stores 09:00 (32400 s), which is below `now`: the code
does not repeat the `+period` advancement at registration time. -/
theorem death_registration_not_future_counterexample :
    storedDeath 36000 8 0 60 = 32400 ∧
    ¬ ((36000 : Int) < storedDeath 36000 8 0 60) := by
  refine ⟨by decide, by decide⟩

/-- Claim C3 (amended): a death-time registration stores exactly
`anchor + periodMinutes` — one single period past the (possibly
day-rolled-back) anchor, so `respawn - anchor` is a positive integer
multiple of the period (the multiplier is 1) — but the stored instant is
not rolled forward past `now`; the repeated advancement exists only in
`roll_respawn_to_future`, applied at display/scheduler time. -/
theorem death_registration_exact_one_period (now : Int) (hh mm p : Nat)
    (hp : 0 < p) :
    storedDeath now hh mm p - smart_day_datetime now hh mm = 60 * (p : Int) ∧
    (0 : Int) < 60 * (p : Int) ∧
    (∃ k : Nat, 0 < k ∧
      storedDeath now hh mm p - smart_day_datetime now hh mm
        = (k : Int) * (60 * (p : Int))) := by
  refine ⟨by unfold storedDeath; ring, by omega, 1, Nat.one_pos, ?_⟩
  unfold storedDeath
  push_cast
  ring

/-- Witness for C3 (amended) at the spec's example input: `now` 10:00:00,
death time 14:00, period 240 minutes. -/
theorem death_registration_exact_one_period_witness :
    storedDeath 36000 14 0 240 - smart_day_datetime 36000 14 0
      = 60 * ((240 : Nat) : Int) :=
  (death_registration_exact_one_period 36000 14 0 240 (by decide)).1

/-- Claim C4 (counterexample): an explicit-reappearance registration can
store an instant that is not strictly greater than `now`, and an anchor
`≤ now` is stored unchanged rather than advanced by one day.  At
`now` = 10:00:00 of day 0 (36000 s), registering explicit time 09:00
stores 09:00 (32400 s) itself. -/
theorem explicit_registration_not_future_counterexample :
    storedExplicit 36000 9 0 = 32400 ∧
    anchorToday 36000 9 0 ≤ 36000 ∧
    ¬ ((36000 : Int) < storedExplicit 36000 9 0) := by
  refine ⟨by decide, by decide, by decide⟩

/-- Claim C4 (amended): the stored explicit respawn is never advanced by
a day; it is the day-bound anchor itself, rolled *back* one day when the
anchor is more than 5 minutes after `now`.  Hence it never exceeds
`now + 300` seconds, and whenever the anchor is `≤ now` the stored
instant equals the anchor (so it can lie in the past). -/
theorem explicit_registration_anchor_bound (now : Int) (hh mm : Nat)
    (h1 : hh ≤ 23) (h2 : mm ≤ 59) :
    storedExplicit now hh mm ≤ now + 300 ∧
    (anchorToday now hh mm ≤ now →
      storedExplicit now hh mm = anchorToday now hh mm) := by
  simp only [storedExplicit, smart_day_datetime, anchorToday, dayStart, daySec]
  constructor
  · split
    next h => omega
    next h => omega
  · intro h3
    rw [if_neg (by omega)]

/-- Witness for C4 (amended) at a concrete input: `now` = 36000
(10:00:00), clock 09:00. -/
theorem explicit_registration_anchor_bound_witness :
    storedExplicit 36000 9 0 ≤ 36300 ∧
    storedExplicit 36000 9 0 = anchorToday 36000 9 0 :=
  ⟨(explicit_registration_anchor_bound 36000 9 0 (by decide) (by decide)).1,
   (explicit_registration_anchor_bound 36000 9 0 (by decide) (by decide)).2 (by decide)⟩

/-- Claim C6 (confirmed): the confirm-clear command wipes the scope's
timers exactly when it arrives no later than 60 seconds after the most
recent request-clear (the armed deadline), also consuming the pending
confirmation; past the deadline it changes nothing, and whenever the
clear does not execute the whole target state is left untouched. -/
theorem confirm_clear_iff_within_ttl (t : TargetData) (rq now : Int) :
    (now ≤ rq + 60 →
      confirmClear now (requestClear rq t)
        = (TargetData.mk [] none, true)) ∧
    (rq + 60 < now →
      confirmClear now (requestClear rq t) = (requestClear rq t, false)) ∧
    ((confirmClear now t).2 = false → (confirmClear now t).1 = t) := by
  refine ⟨?_, ?_, ?_⟩
  · intro h
    simp only [confirmClear, requestClear]
    rw [if_pos h]
  · intro h
    simp only [confirmClear, requestClear]
    rw [if_neg (by omega)]
  · intro h
    cases ht : t.pendingClearUntil with
    | none => simp [confirmClear, ht]
    | some u =>
        simp only [confirmClear, ht] at h ⊢
        by_cases hu : now ≤ u
        · rw [if_pos hu] at h
          exact absurd h (by simp)
        · rw [if_neg hu]

/-- Witness for C6 at the spec's example: request at 0 s, confirm at
50 s (within the 60 s ttl) wipes the timers and the pending record. -/
theorem confirm_clear_iff_within_ttl_witness :
    confirmClear 50 (requestClear 0
        (TargetData.mk [("惡魔", registerRecord 100)] none))
      = (TargetData.mk [] none, true) :=
  (confirm_clear_iff_within_ttl
    (TargetData.mk [("惡魔", registerRecord 100)] none) 0 50).1 (by decide)

/-! ## Helper lemmas for the name resolver -/

lemma filterMapIf_sublist {α β : Type} (l : List α) (p : α → Bool) (g : α → β) :
    (l.filterMap (fun e => if p e then some (g e) else none)).Sublist (l.map g) := by
  induction l with
  | nil => simp
  | cons a t ih =>
      by_cases h : p a
      · simpa [List.filterMap_cons, h] using List.Sublist.cons₂ (g a) ih
      · simpa [List.filterMap_cons, h] using List.Sublist.cons (g a) ih

lemma fuzzyHits_sublist (q : String) :
    (fuzzyHits q).Sublist (BOSS_TABLE.map BossEntry.name) :=
  filterMapIf_sublist BOSS_TABLE _ BossEntry.name

lemma dedupKeep_sublist : ∀ (seen l : List String), (dedupKeep seen l).Sublist l := by
  intro seen l
  induction l generalizing seen with
  | nil => simp [dedupKeep]
  | cons x xs ih =>
      simp only [dedupKeep]
      split
      · exact List.Sublist.cons x (ih seen)
      · exact List.Sublist.cons₂ x (ih (seen ++ [x]))

lemma resolve_boss_cases (q : String) :
    (resolve_boss q).2 = [] ∨
    ((resolve_boss q).1 = none ∧
      (resolve_boss q).2 = (dedupKeep [] (fuzzyHits (pyStripS q))).take 10) := by
  simp only [resolve_boss]
  split
  · exact Or.inl rfl
  · split
    · exact Or.inl rfl
    · split
      · exact Or.inl rfl
      · split
        · exact Or.inl rfl
        · exact Or.inr ⟨rfl, rfl⟩

/-- Claim C7 (counterexample): the ambiguous-candidate list is not
ordered by (name length ascending, then lexicographic).  The query `曼`
matches four catalog names; the code returns them in catalog order, with
an 8-character name first and a 2-character name second. -/
theorem resolve_ambiguous_order_counterexample :
    resolve_boss ("曼") = (none, ["曼波兔(海賊島)", "庫曼", "曼波兔(精靈墓穴)", "須曼"]) ∧
    ¬ (((resolve_boss ("曼")).2.map String.length).Sorted (fun a b => a ≤ b)) :=
  ⟨by decide, by decide⟩

/-- Claim C7 (amended): whenever the resolver returns two or more
candidates there is no unique winner, and the candidate list is a
deduplicated, order-preserving selection from the catalog's canonical
names in catalog (insertion) order, truncated to the first 10 — not
sorted by name length or lexicographically. -/
theorem resolve_ambiguous_catalog_order (q : String)
    (h2 : 2 ≤ ((resolve_boss q).2).length) :
    (resolve_boss q).1 = none ∧
    ((resolve_boss q).2).Sublist (BOSS_TABLE.map BossEntry.name) ∧
    ((resolve_boss q).2).Nodup ∧
    ((resolve_boss q).2).length ≤ 10 := by
  rcases resolve_boss_cases q with h | ⟨ha, hl⟩
  · rw [h] at h2
    exact absurd h2 (by simp)
  · have hsub : ((resolve_boss q).2).Sublist (BOSS_TABLE.map BossEntry.name) := by
      rw [hl]
      exact ((List.take_sublist 10 _).trans (dedupKeep_sublist [] _)).trans
        (fuzzyHits_sublist (pyStripS q))
    refine ⟨ha, hsub, List.Nodup.sublist hsub (by decide), ?_⟩
    rw [hl]
    exact List.length_take_le 10 (dedupKeep [] (fuzzyHits (pyStripS q)))

/-- Witness for C7 (amended) at the concrete ambiguous query `曼`. -/
theorem resolve_ambiguous_catalog_order_witness :
    (resolve_boss ("曼")).1 = none :=
  (resolve_ambiguous_catalog_order ("曼") (by decide)).1

/-! ## Helper lemmas for the clock parser -/

lemma isDigitChar_not_ws {c : Char} (h : isDigitChar c = true) :
    c.isWhitespace = false := by
  simp only [isDigitChar, Bool.and_eq_true, decide_eq_true_eq] at h
  by_contra hw
  rw [Bool.not_eq_false] at hw
  simp only [Char.isWhitespace, Bool.or_eq_true, decide_eq_true_eq] at hw
  rcases hw with ((h3 | h3) | h3) | h3 <;> (subst h3; revert h; decide)

lemma digitVal_le_nine {c : Char} (h : isDigitChar c = true) :
    digitVal c ≤ 9 := by
  simp only [isDigitChar, Bool.and_eq_true, decide_eq_true_eq] at h
  unfold digitVal
  omega

lemma dropWhile_no_ws (l : List Char) (h : ∀ c ∈ l, c.isWhitespace = false) :
    l.dropWhile Char.isWhitespace = l := by
  cases l with
  | nil => rfl
  | cons a t =>
      rw [List.dropWhile_cons]
      simp [h a (List.mem_cons_self a t)]

lemma pyStrip_no_ws (l : List Char) (h : ∀ c ∈ l, c.isWhitespace = false) :
    pyStrip l = l := by
  unfold pyStrip
  rw [dropWhile_no_ws l h,
    dropWhile_no_ws l.reverse (fun c hc => h c (List.mem_reverse.mp hc)),
    List.reverse_reverse]

lemma parseClockChars_spec (cs : List Char) (hh mm : Nat) :
    parseClockChars cs = some (hh, mm) ↔
      (clockRep cs hh mm ∧ hh ≤ 23 ∧ mm ≤ 59) := by
  constructor
  · intro hp
    rcases cs with _ | ⟨a, _ | ⟨b, _ | ⟨c, _ | ⟨d, _ | ⟨e, _ | ⟨f, tl⟩⟩⟩⟩⟩⟩
    · exact Option.noConfusion hp
    · exact Option.noConfusion hp
    · exact Option.noConfusion hp
    · simp only [parseClockChars] at hp
      split at hp
      next hcond =>
        simp only [Bool.and_eq_true] at hcond
        obtain ⟨⟨ha, hb⟩, hc⟩ := hcond
        unfold chkClock at hp
        split at hp
        next hr =>
          injection hp with hp2
          cases hp2
          exact ⟨Or.inl ⟨a, b, c, rfl, ha, hb, hc, rfl, rfl⟩, hr⟩
        next => exact Option.noConfusion hp
      next => exact Option.noConfusion hp
    · simp only [parseClockChars] at hp
      split at hp
      next hcond =>
        simp only [Bool.and_eq_true] at hcond
        obtain ⟨⟨⟨ha, hb⟩, hc⟩, hd⟩ := hcond
        unfold chkClock at hp
        split at hp
        next hr =>
          injection hp with hp2
          cases hp2
          exact ⟨Or.inr (Or.inl ⟨a, b, c, d, rfl, ha, hb, hc, hd, rfl, rfl⟩), hr⟩
        next => exact Option.noConfusion hp
      next =>
        split at hp
        next hcond =>
          simp only [Bool.and_eq_true, beq_iff_eq] at hcond
          obtain ⟨⟨⟨ha, hb⟩, hc⟩, hd⟩ := hcond
          subst hb
          unfold chkClock at hp
          split at hp
          next hr =>
            injection hp with hp2
            cases hp2
            exact ⟨Or.inr (Or.inr (Or.inl ⟨a, c, d, rfl, ha, hc, hd, rfl, rfl⟩)), hr⟩
          next => exact Option.noConfusion hp
        next => exact Option.noConfusion hp
    · simp only [parseClockChars] at hp
      split at hp
      next hcond =>
        simp only [Bool.and_eq_true, beq_iff_eq] at hcond
        obtain ⟨⟨⟨⟨ha, hb⟩, hc⟩, hd⟩, he⟩ := hcond
        subst hc
        unfold chkClock at hp
        split at hp
        next hr =>
          injection hp with hp2
          cases hp2
          exact ⟨Or.inr (Or.inr (Or.inr ⟨a, b, d, e, rfl, ha, hb, hd, he, rfl, rfl⟩)), hr⟩
        next => exact Option.noConfusion hp
      next => exact Option.noConfusion hp
    · exact Option.noConfusion hp
  · rintro ⟨hrep, h23, h59⟩
    have hcolon : isDigitChar (':') = false := by decide
    rcases hrep with ⟨a, b, c, rfl, ha, hb, hc, rfl, rfl⟩ |
      ⟨a, b, c, d, rfl, ha, hb, hc, hd, rfl, rfl⟩ |
      ⟨a, c, d, rfl, ha, hc, hd, rfl, rfl⟩ |
      ⟨a, b, d, e, rfl, ha, hb, hd, he, rfl, rfl⟩
    · simp [parseClockChars, ha, hb, hc, chkClock, h23, h59]
    · simp [parseClockChars, ha, hb, hc, hd, chkClock, h23, h59]
    · simp [parseClockChars, ha, hc, hd, hcolon, chkClock, h23, h59]
    · simp [parseClockChars, ha, hb, hd, he, hcolon, chkClock, h23, h59]

/-- Claim C8 (counterexample): the clock parser accepts a third token
shape.  The 3-character token `930` is neither a 4-digit token nor a
colon-delimited token, yet it parses as 9:30. -/
theorem parse_three_digit_accepted_counterexample :
    parse_hhmm ("930") = some (9, 30) ∧
    (("930").data.length = 3) ∧
    (("930").data.contains (':') = false) :=
  ⟨by decide, by decide, by decide⟩

/-- Claim C8 (amended): after stripping, the parser accepts exactly the
token shapes 3-digit `HMM`, 4-digit `HHMM` and colon-delimited
`H:MM` / `HH:MM`, and exactly when the hour is at most 23 and the minute
at most 59; every other token is rejected. -/
theorem parse_hhmm_characterization (t : String) (hh mm : Nat) :
    parse_hhmm t = some (hh, mm) ↔
      (clockRep (pyStrip t.data) hh mm ∧ hh ≤ 23 ∧ mm ≤ 59) :=
  parseClockChars_spec (pyStrip t.data) hh mm

/-- Claim C10 (confirmed): every 3-digit token `d1 d2 d3` whose trailing
two digits form a minute at most 59 is accepted, parsing as hour `d1`
and minute `d2 d3`. -/
theorem parse_three_digit (a b c : Char) (ha : isDigitChar a = true)
    (hb : isDigitChar b = true) (hc : isDigitChar c = true)
    (hm : 10 * digitVal b + digitVal c ≤ 59) :
    parse_hhmm (String.mk [a, b, c])
      = some (digitVal a, 10 * digitVal b + digitVal c) := by
  have hnw : ∀ x ∈ [a, b, c], x.isWhitespace = false := by
    intro x hx
    simp only [List.mem_cons, List.not_mem_nil, or_false] at hx
    rcases hx with rfl | rfl | rfl
    · exact isDigitChar_not_ws ha
    · exact isDigitChar_not_ws hb
    · exact isDigitChar_not_ws hc
  have hs : pyStrip [a, b, c] = [a, b, c] := pyStrip_no_ws [a, b, c] hnw
  have h23 : digitVal a ≤ 23 := Nat.le_trans (digitVal_le_nine ha) (by omega)
  unfold parse_hhmm
  show parseClockChars (pyStrip [a, b, c]) = _
  rw [hs]
  simp [parseClockChars, ha, hb, hc, chkClock, h23, hm]

/-- Witness for C10 at the concrete token `930`. -/
theorem parse_three_digit_witness :
    parse_hhmm (String.mk [('9'), ('3'), ('0')])
      = some (digitVal ('9'), 10 * digitVal ('3') + digitVal ('0')) :=
  parse_three_digit ('9') ('3') ('0') (by decide) (by decide) (by decide) (by decide)
